import Mathlib

/-!
Verification of the format-resolution and generic-loading core of
`data_io/format_io_utils.py` (DOSMA).  Filesystem paths are modelled as
lists of characters (POSIX separators); the `os.path` helpers used by the
source (`splitext`, `dirname`, `basename`, `join`) are embedded faithfully
from CPython's `posixpath` semantics.  The collaborators imported by the
source module (`ImageDataFormat`, `SUPPORTED_FORMATS`,
`contains_dicom_extension`, `contains_nifti_extension`) live in files not
included with the sources and are modelled from the spec, as marked below.
-/

/-- A filesystem path, modelled as its list of characters (POSIX separators). -/
abbrev FsPath := List Char

/-- Characters of a path after the last '/' — CPython `posixpath.basename`. -/
def pathBasename (p : FsPath) : FsPath :=
  (p.reverse.takeWhile (fun c => decide (c ≠ '/'))).reverse

/-- Characters of a path up to and including the last '/' (empty when the
path has no '/') — the `head` computed inside CPython `posixpath.dirname`
before its trailing-slash strip. -/
def pathHead (p : FsPath) : FsPath :=
  (p.reverse.dropWhile (fun c => decide (c ≠ '/'))).reverse

/-- CPython `posixpath.dirname`: everything before the last '/', with
trailing slashes stripped unless the head consists only of slashes. -/
def pathDirname (p : FsPath) : FsPath :=
  let head := pathHead p
  if head ≠ [] ∧ ¬ (∀ c ∈ head, c = '/') then
    (head.reverse.dropWhile (fun c => decide (c = '/'))).reverse
  else head

/-- CPython `posixpath.join` restricted to two components, as used by the
source: if `b` is absolute it wins; otherwise `b` is appended to `a`,
inserting a '/' unless `a` is empty or already ends in one. -/
def pathJoin (a b : FsPath) : FsPath :=
  if b.head? = some '/' then b
  else if a = [] ∨ a.getLast? = some '/' then a ++ b
  else a ++ '/' :: b

/-- Whether CPython `posixpath.splitext` gives a non-empty extension: the
basename, after skipping its leading dots, still contains a dot. -/
def hasExt (p : FsPath) : Bool :=
  decide ('.' ∈ (pathBasename p).dropWhile (fun c => decide (c = '.')))

/-- Python `str.endswith`. -/
def endswith (p suffixChars : FsPath) : Bool :=
  decide (suffixChars <:+ p)

/-- Python `basename.split('.', 1)[0]`: the part of a string before its
first '.', or the whole string when it has none. -/
def beforeFirstDot (s : FsPath) : FsPath :=
  s.takeWhile (fun c => decide (c ≠ '.'))

/-- Modelled from the spec: the closed enumeration `ImageDataFormat` from
`data_io/format_io.py` (a file not included with the sources) — one variant
per storage convention: directory-based DICOM and single-file NIfTI. -/
inductive ImageDataFormat
  | dicom
  | nifti
deriving DecidableEq

/-- Modelled from the spec: the registry's fixed iteration order
`SUPPORTED_FORMATS` from `data_io/format_io.py` (not included with the
sources): the full closed set of conventions. -/
def SUPPORTED_FORMATS : List ImageDataFormat := [.nifti, .dicom]

/-- Modelled from the spec: `contains_dicom_extension` from
`data_io/dicom_io.py` (not included with the sources) — the directory-based
convention's allow-list of extension markers, here the standard `.dcm`
suffix. -/
def contains_dicom_extension (p : FsPath) : Bool :=
  endswith p ".dcm".data

/-- Modelled from the spec: `contains_nifti_extension` from
`data_io/nifti_io.py` (not included with the sources) — the single-file
convention's compound suffix `.nii.gz` together with the plain `.nii`
marker. -/
def contains_nifti_extension (p : FsPath) : Bool :=
  endswith p ".nii".data || endswith p ".nii.gz".data

/-- Error kinds raised by the module (Python exceptions with their
payloads). -/
inductive LoadErr
  | unsupportedFormat (supported : List ImageDataFormat)
  | unrecognizedFormat (path : FsPath)
  | notImplementedConversion (src tgt : ImageDataFormat)
  | ambiguousSource (listed : List FsPath)
  | fileNotFound (base : FsPath)
  | volumeCountMismatch (expected actual : Nat)
deriving DecidableEq

/-- Reader capabilities handed out by the registry (their internals are
external collaborators). -/
inductive DataReader
  | niftiR
  | dicomR
deriving DecidableEq

/-- Writer capabilities handed out by the registry. -/
inductive DataWriter
  | niftiW
  | dicomW
deriving DecidableEq

/-- `get_reader` from `format_io_utils.py`: guard against conventions
outside `SUPPORTED_FORMATS` (the list is a module-level import, passed
here as the parameter `supp`), then dispatch. -/
def get_reader (supp : List ImageDataFormat) (data_format : ImageDataFormat) :
    Except LoadErr DataReader :=
  if data_format ∉ supp then .error (.unsupportedFormat supp)
  else
    match data_format with
    | .nifti => .ok .niftiR
    | .dicom => .ok .dicomR

/-- `get_writer` from `format_io_utils.py`. -/
def get_writer (supp : List ImageDataFormat) (data_format : ImageDataFormat) :
    Except LoadErr DataWriter :=
  if data_format ∉ supp then .error (.unsupportedFormat supp)
  else
    match data_format with
    | .nifti => .ok .niftiW
    | .dicom => .ok .dicomW

/-- `get_data_format` from `format_io_utils.py`: empty extension or a DICOM
marker classifies as dicom; else a NIfTI marker classifies as nifti; else
`ValueError('Unknown data format for %s')`. -/
def get_data_format (file_or_dirname : FsPath) : Except LoadErr ImageDataFormat :=
  if hasExt file_or_dirname = false ∨ contains_dicom_extension file_or_dirname = true then
    .ok .dicom
  else if contains_nifti_extension file_or_dirname = true then
    .ok .nifti
  else
    .error (.unrecognizedFormat file_or_dirname)

/-- `convert_format_filename` from `format_io_utils.py`. -/
def convert_format_filename (supp : List ImageDataFormat) (file_or_dirname : FsPath)
    (new_data_format : ImageDataFormat) : Except LoadErr FsPath :=
  if new_data_format ∉ supp then .error (.unsupportedFormat supp)
  else
    match get_data_format file_or_dirname with
    | .error e => .error e
    | .ok current_format =>
      if current_format = new_data_format then .ok file_or_dirname
      else if current_format = .dicom ∧ new_data_format = .nifti then
        .ok (pathJoin (pathDirname file_or_dirname)
              (pathBasename file_or_dirname ++ ".nii.gz".data))
      else if current_format = .nifti ∧ new_data_format = .dicom then
        .ok (pathJoin (pathDirname file_or_dirname)
              (beforeFirstDot (pathBasename file_or_dirname)))
      else .error (.notImplementedConversion current_format new_data_format)

/-- The accumulation loop of `get_filepath_variations`: convert the path
for each format in order, propagating the first exception. -/
def variationsLoop (supp : List ImageDataFormat) (p : FsPath) :
    List ImageDataFormat → Except LoadErr (List FsPath)
  | [] => .ok []
  | fmt :: rest =>
    match convert_format_filename supp p fmt with
    | .error e => .error e
    | .ok q =>
      match variationsLoop supp p rest with
      | .error e => .error e
      | .ok qs => .ok (q :: qs)

/-- `get_filepath_variations` from `format_io_utils.py`. -/
def get_filepath_variations (supp : List ImageDataFormat) (p : FsPath) :
    Except LoadErr (List FsPath) :=
  variationsLoop supp p supp

/-- The result of a load: Python readers return either a bare volume or a
list of volumes. -/
inductive Vols (α : Type)
  | single (vol : α)
  | many (vols : List α)
deriving DecidableEq

/-- The normalization `if type(vols) is not list: vols = [vols]` in
`generic_load`. -/
def asVolList {α : Type} : Vols α → List α
  | .single v => [v]
  | .many l => l

/-- The existence-probing loop of `generic_load`: walk the variations in
order, remembering the first existing path and raising the ambiguity error
(listing `possible`, the full variation list) upon a second hit. -/
def scanExisting (fs : FsPath → Bool) (possible : List FsPath) :
    List FsPath → Option FsPath → Except LoadErr (Option FsPath)
  | [], acc => .ok acc
  | fp :: rest, acc =>
    if fs fp then
      match acc with
      | some _ => .error (.ambiguousSource possible)
      | none => scanExisting fs possible rest (some fp)
    else scanExisting fs possible rest acc

/-- `generic_load` from `format_io_utils.py`.  `fs` is the
`os.path.exists` oracle and `read` the behaviour of the external readers
(`r.load(exist_path)`). -/
def generic_load {α : Type} (supp : List ImageDataFormat) (fs : FsPath → Bool)
    (read : DataReader → FsPath → Vols α) (file_or_dirname : FsPath)
    (expected_num_volumes : Option Nat) : Except LoadErr (Vols α) :=
  match get_filepath_variations supp file_or_dirname with
  | .error e => .error e
  | .ok possible_filepaths =>
    match scanExisting fs possible_filepaths possible_filepaths none with
    | .error e => .error e
    | .ok none => .error (.fileNotFound (pathBasename file_or_dirname))
    | .ok (some exist_path) =>
      match get_data_format exist_path with
      | .error e => .error e
      | .ok fmt =>
        match get_reader supp fmt with
        | .error e => .error e
        | .ok r =>
          let vols := read r exist_path
          match expected_num_volumes with
          | none => .ok vols
          | some n =>
            let volsList := asVolList vols
            if volsList.length ≠ n then
              .error (.volumeCountMismatch n volsList.length)
            else
              match volsList with
              | [v] => .ok (.single v)
              | l => .ok (.many l)

example : get_data_format "/data/scan".data = .ok .dicom := rfl
example : get_data_format "/data/scan.nii.gz".data = .ok .nifti := rfl
example : get_data_format "/data/scan.txt".data =
    .error (.unrecognizedFormat "/data/scan.txt".data) := rfl
example : convert_format_filename SUPPORTED_FORMATS "/data/scan".data .nifti =
    .ok "/data/scan.nii.gz".data := rfl
example : convert_format_filename SUPPORTED_FORMATS "/data/scan.nii.gz".data .dicom =
    .ok "/data/scan".data := rfl
example : get_filepath_variations SUPPORTED_FORMATS "/data/scan".data =
    .ok ["/data/scan.nii.gz".data, "/data/scan".data] := rfl

/-! ### Helper lemmas about the embedded `os.path` operations -/

lemma takeWhile_append_all {q : Char → Bool} {xs : List Char} (h : ∀ c ∈ xs, q c = true)
    (ys : List Char) : List.takeWhile q (xs ++ ys) = xs ++ List.takeWhile q ys := by
  induction xs with
  | nil => rfl
  | cons c xs ih =>
    have hc : q c = true := h c (List.mem_cons_self c xs)
    simp only [List.cons_append, List.takeWhile_cons, hc, if_true]
    rw [ih (fun d hd => h d (List.mem_cons_of_mem c hd))]

lemma mem_pathBasename_ne_slash {p : FsPath} {c : Char} (h : c ∈ pathBasename p) : c ≠ '/' := by
  unfold pathBasename at h
  rw [List.mem_reverse] at h
  exact of_decide_eq_true (List.mem_takeWhile_imp (p := fun c => decide (c ≠ '/')) h)

lemma pathBasename_append {a b : FsPath} (h : ∀ c ∈ b, c ≠ '/') :
    pathBasename (a ++ b) = pathBasename a ++ b := by
  unfold pathBasename
  rw [List.reverse_append,
    takeWhile_append_all (fun c hc => decide_eq_true (h c (List.mem_reverse.mp hc))),
    List.reverse_append, List.reverse_reverse]

lemma pathBasename_ends_slash {a : FsPath} (h : a.getLast? = some '/') : pathBasename a = [] := by
  unfold pathBasename
  rw [← List.head?_reverse] at h
  cases hr : a.reverse with
  | nil => rw [hr] at h; simp at h
  | cons c t =>
    rw [hr] at h
    simp only [List.head?_cons, Option.some.injEq] at h
    subst h
    simp [List.takeWhile_cons]

lemma pathBasename_join {a b : FsPath} (h : ∀ c ∈ b, c ≠ '/') :
    pathBasename (pathJoin a b) = b := by
  unfold pathJoin
  by_cases h1 : b.head? = some '/'
  · exfalso
    cases b with
    | nil => simp at h1
    | cons x xs =>
      simp only [List.head?_cons, Option.some.injEq] at h1
      exact (h x (List.mem_cons_self x xs)) h1
  · rw [if_neg h1]
    by_cases h2 : a = [] ∨ a.getLast? = some '/'
    · rw [if_pos h2, pathBasename_append h]
      rcases h2 with h2 | h2
      · subst h2; rfl
      · rw [pathBasename_ends_slash h2, List.nil_append]
    · rw [if_neg h2]
      have hsplit : a ++ '/' :: b = (a ++ ['/']) ++ b := by simp
      rw [hsplit, pathBasename_append h, pathBasename_ends_slash (List.getLast?_concat a),
        List.nil_append]

lemma pathJoin_suffix {a b : FsPath} (h1 : b.head? ≠ some '/') : b <:+ pathJoin a b := by
  unfold pathJoin
  rw [if_neg h1]
  by_cases h2 : a = [] ∨ a.getLast? = some '/'
  · rw [if_pos h2]; exact List.suffix_append a b
  · rw [if_neg h2]
    exact (List.suffix_cons '/' b).trans (List.suffix_append a ('/' :: b))

lemma dropDots_mem_append_nii (x : FsPath) :
    '.' ∈ (x ++ ".nii.gz".data).dropWhile (fun c => decide (c = '.')) := by
  induction x with
  | nil => decide
  | cons c x ih =>
    rw [List.cons_append, List.dropWhile_cons]
    by_cases hc : c = '.'
    · simp only [hc, decide_eq_true_eq, if_pos rfl]
      exact ih
    · rw [if_neg (by simpa using hc)]
      exact List.mem_cons_of_mem c (List.mem_append_right x (by decide))

lemma suffix_suffix_of_le {s t q : FsPath} (hs : s <:+ q) (ht : t <:+ q)
    (hl : s.length ≤ t.length) : s <:+ t := by
  obtain ⟨u, hu⟩ := hs
  obtain ⟨v, hv⟩ := ht
  have h1 : u.length + s.length = q.length := by rw [← hu, List.length_append]
  have h2 : v.length + t.length = q.length := by rw [← hv, List.length_append]
  have hvu : v.length ≤ u.length := by omega
  have e1 : s = List.drop u.length q := by rw [← hu, List.drop_left]
  have e2 : List.drop v.length q = t := by rw [← hv, List.drop_left]
  have e3 : List.drop (u.length - v.length) t = s := by
    rw [← e2, List.drop_drop, Nat.add_sub_cancel' hvu, ← e1]
  exact e3 ▸ List.drop_suffix (u.length - v.length) t

lemma not_dcm_of_nii_gz {q : FsPath} (h : ".nii.gz".data <:+ q) :
    contains_dicom_extension q = false := by
  unfold contains_dicom_extension endswith
  rw [decide_eq_false_iff_not]
  intro hd
  have : ".dcm".data <:+ ".nii.gz".data := suffix_suffix_of_le hd h (by decide)
  exact absurd this (by decide)

lemma nii_gz_chars_ne_slash : ∀ c ∈ ".nii.gz".data, c ≠ '/' := by decide

lemma head_ne_slash_of_no_slash {b : FsPath} (h : ∀ c ∈ b, c ≠ '/') :
    b.head? ≠ some '/' := by
  intro hh
  cases b with
  | nil => simp at hh
  | cons x xs =>
    simp only [List.head?_cons, Option.some.injEq] at hh
    exact (h x (List.mem_cons_self x xs)) hh

/-- The path produced by the dicom → nifti branch of `convert_format_filename`
classifies as nifti. -/
lemma resolve_dicom_to_nifti_path (p : FsPath) :
    get_data_format (pathJoin (pathDirname p) (pathBasename p ++ ".nii.gz".data)) =
      .ok .nifti := by
  have hbs : ∀ c ∈ pathBasename p ++ ".nii.gz".data, c ≠ '/' := by
    intro c hc
    rcases List.mem_append.mp hc with h | h
    · exact mem_pathBasename_ne_slash h
    · exact nii_gz_chars_ne_slash c h
  have hsuf : ".nii.gz".data <:+ pathJoin (pathDirname p) (pathBasename p ++ ".nii.gz".data) :=
    (List.suffix_append (pathBasename p) ".nii.gz".data).trans
      (pathJoin_suffix (head_ne_slash_of_no_slash hbs))
  have hx : hasExt (pathJoin (pathDirname p) (pathBasename p ++ ".nii.gz".data)) = true := by
    unfold hasExt
    rw [pathBasename_join hbs]
    exact decide_eq_true (dropDots_mem_append_nii (pathBasename p))
  have hd := not_dcm_of_nii_gz hsuf
  have hn : contains_nifti_extension
      (pathJoin (pathDirname p) (pathBasename p ++ ".nii.gz".data)) = true := by
    unfold contains_nifti_extension endswith
    rw [decide_eq_true hsuf, Bool.or_true]
  simp [get_data_format, hx, hd, hn]

/-- The path produced by the nifti → dicom branch of `convert_format_filename`
classifies as dicom (its extension is empty). -/
lemma resolve_nifti_to_dicom_path (p : FsPath) :
    get_data_format (pathJoin (pathDirname p) (beforeFirstDot (pathBasename p))) =
      .ok .dicom := by
  have hbs : ∀ c ∈ beforeFirstDot (pathBasename p), c ≠ '/' := by
    intro c hc
    unfold beforeFirstDot at hc
    exact mem_pathBasename_ne_slash ((List.takeWhile_sublist _).subset hc)
  have hx : hasExt (pathJoin (pathDirname p) (beforeFirstDot (pathBasename p))) = false := by
    unfold hasExt
    rw [pathBasename_join hbs, decide_eq_false_iff_not]
    intro hdot
    have h1 : '.' ∈ beforeFirstDot (pathBasename p) :=
      (List.dropWhile_sublist _).subset hdot
    unfold beforeFirstDot at h1
    have h2 := List.mem_takeWhile_imp (p := fun c => decide (c ≠ '.')) h1
    simp at h2
  simp [get_data_format, hx]

lemma mem_SUPPORTED (c : ImageDataFormat) : c ∈ SUPPORTED_FORMATS := by
  cases c <;> decide

/-- Branch-level description of `convert_format_filename` on a path whose
classification succeeds. -/
lemma convert_eq_of_resolved {p : FsPath} {c : ImageDataFormat}
    (h : get_data_format p = .ok c) (t : ImageDataFormat) :
    convert_format_filename SUPPORTED_FORMATS p t =
      if c = t then .ok p
      else if c = .dicom then
        .ok (pathJoin (pathDirname p) (pathBasename p ++ ".nii.gz".data))
      else
        .ok (pathJoin (pathDirname p) (beforeFirstDot (pathBasename p))) := by
  unfold convert_format_filename
  rw [if_neg (by simp [mem_SUPPORTED t]), h]
  cases c <;> cases t <;> simp

/-- Unfolding of `get_filepath_variations` at the modelled registry when
both conversions succeed. -/
lemma variations_pair {p v1 v2 : FsPath}
    (h1 : convert_format_filename SUPPORTED_FORMATS p .nifti = .ok v1)
    (h2 : convert_format_filename SUPPORTED_FORMATS p .dicom = .ok v2) :
    get_filepath_variations SUPPORTED_FORMATS p = .ok [v1, v2] := by
  show variationsLoop SUPPORTED_FORMATS p [.nifti, .dicom] = .ok [v1, v2]
  simp [variationsLoop, h1, h2]

/-- Inversion: a successful variation list is the two successful
conversions, in registry order. -/
lemma variations_inv {p : FsPath} {vs : List FsPath}
    (h : get_filepath_variations SUPPORTED_FORMATS p = .ok vs) :
    ∃ v1 v2, convert_format_filename SUPPORTED_FORMATS p .nifti = .ok v1 ∧
      convert_format_filename SUPPORTED_FORMATS p .dicom = .ok v2 ∧ vs = [v1, v2] := by
  have h' : variationsLoop SUPPORTED_FORMATS p [.nifti, .dicom] = .ok vs := h
  cases e1 : convert_format_filename SUPPORTED_FORMATS p .nifti with
  | error e => simp [variationsLoop, e1] at h'
  | ok v1 =>
    cases e2 : convert_format_filename SUPPORTED_FORMATS p .dicom with
    | error e => simp [variationsLoop, e1, e2] at h'
    | ok v2 =>
      simp only [variationsLoop, e1, e2, Except.ok.injEq] at h'
      exact ⟨v1, v2, rfl, rfl, h'.symm⟩

/-! ### Claim theorems -/

/-- C2: for every path `p` and supported convention `c`, whenever
`convert_format_filename` (Rename) succeeds with result `q`, classifying
`q` with `get_data_format` (Resolve) yields `c`. -/
theorem C2_resolve_after_rename (p q : FsPath) (c : ImageDataFormat)
    (h : convert_format_filename SUPPORTED_FORMATS p c = .ok q) :
    get_data_format q = .ok c := by
  cases hg : get_data_format p with
  | error e =>
    exfalso
    unfold convert_format_filename at h
    rw [if_neg (by simp [mem_SUPPORTED c]), hg] at h
    simp at h
  | ok cur =>
    rw [convert_eq_of_resolved hg c] at h
    by_cases hc : cur = c
    · subst hc
      rw [if_pos rfl] at h
      simp only [Except.ok.injEq] at h
      rw [← h]
      exact hg
    · rw [if_neg hc] at h
      cases cur with
      | dicom =>
        cases c with
        | dicom => exact absurd rfl hc
        | nifti =>
          rw [if_pos rfl] at h
          simp only [Except.ok.injEq] at h
          rw [← h]
          exact resolve_dicom_to_nifti_path p
      | nifti =>
        cases c with
        | nifti => exact absurd rfl hc
        | dicom =>
          rw [if_neg (by decide)] at h
          simp only [Except.ok.injEq] at h
          rw [← h]
          exact resolve_nifti_to_dicom_path p

/-- Witness for C2 at a concrete renaming. -/
theorem C2_witness : get_data_format "/data/scan.nii.gz".data = .ok .nifti :=
  C2_resolve_after_rename "/data/scan".data "/data/scan.nii.gz".data .nifti rfl

/-- C3: for every path whose classification succeeds, renaming to the
path's own current convention returns the path unchanged. -/
theorem C3_rename_identity (p : FsPath) (c : ImageDataFormat)
    (h : get_data_format p = .ok c) :
    convert_format_filename SUPPORTED_FORMATS p c = .ok p := by
  rw [convert_eq_of_resolved h c, if_pos rfl]

/-- Witness for C3 at a concrete path. -/
theorem C3_witness :
    convert_format_filename SUPPORTED_FORMATS "/data/scan".data .dicom =
      .ok "/data/scan".data :=
  C3_rename_identity "/data/scan".data .dicom rfl

/-- C4: `get_data_format` classifies by name alone with fixed priority:
empty extension or a DICOM marker gives dicom (empty extension wins
regardless of the other recognizers); else a NIfTI marker gives nifti;
else it fails with the unrecognized-format error naming the path. -/
theorem C4_resolve_priority (p : FsPath) :
    ((hasExt p = false ∨ contains_dicom_extension p = true) →
      get_data_format p = .ok .dicom) ∧
    (hasExt p = true → contains_dicom_extension p = false →
      contains_nifti_extension p = true → get_data_format p = .ok .nifti) ∧
    (hasExt p = true → contains_dicom_extension p = false →
      contains_nifti_extension p = false →
      get_data_format p = .error (.unrecognizedFormat p)) := by
  refine ⟨fun h => ?_, fun h1 h2 h3 => ?_, fun h1 h2 h3 => ?_⟩
  · simp [get_data_format, h]
  · simp [get_data_format, h1, h2, h3]
  · simp [get_data_format, h1, h2, h3]

/-- Witness for C4: one concrete path per branch. -/
theorem C4_witness :
    get_data_format "/data/scan".data = .ok .dicom ∧
    get_data_format "/data/scan.nii.gz".data = .ok .nifti ∧
    get_data_format "/data/scan.txt".data =
      .error (.unrecognizedFormat "/data/scan.txt".data) :=
  ⟨(C4_resolve_priority "/data/scan".data).1 (Or.inl (by decide)),
   (C4_resolve_priority "/data/scan.nii.gz".data).2.1 (by decide) (by decide) (by decide),
   (C4_resolve_priority "/data/scan.txt".data).2.2 (by decide) (by decide) (by decide)⟩

/-- C5: renaming dicom → nifti appends the fixed `.nii.gz` suffix to the
base name under the same parent; renaming nifti → dicom strips everything
from the first '.' of the base name (an incidental dot truncates there),
shown on the spec's concrete examples and in general. -/
theorem C5_rename_shapes :
    (convert_format_filename SUPPORTED_FORMATS "/data/scan".data .nifti =
      .ok "/data/scan.nii.gz".data) ∧
    (convert_format_filename SUPPORTED_FORMATS "/data/scan.nii.gz".data .dicom =
      .ok "/data/scan".data) ∧
    (convert_format_filename SUPPORTED_FORMATS "/data/scan.v2.nii.gz".data .dicom =
      .ok "/data/scan".data) ∧
    (∀ p : FsPath, get_data_format p = .ok .dicom →
      convert_format_filename SUPPORTED_FORMATS p .nifti =
        .ok (pathJoin (pathDirname p) (pathBasename p ++ ".nii.gz".data))) ∧
    (∀ p : FsPath, get_data_format p = .ok .nifti →
      convert_format_filename SUPPORTED_FORMATS p .dicom =
        .ok (pathJoin (pathDirname p) (beforeFirstDot (pathBasename p)))) := by
  refine ⟨rfl, rfl, rfl, fun p h => ?_, fun p h => ?_⟩
  · rw [convert_eq_of_resolved h .nifti, if_neg (by decide), if_pos rfl]
  · rw [convert_eq_of_resolved h .dicom, if_neg (by decide), if_neg (by decide)]

/-- Witness for C5's general conjuncts at concrete paths. -/
theorem C5_witness :
    convert_format_filename SUPPORTED_FORMATS "/a/b".data .nifti =
      .ok (pathJoin (pathDirname "/a/b".data) (pathBasename "/a/b".data ++ ".nii.gz".data)) ∧
    convert_format_filename SUPPORTED_FORMATS "/a/b.nii".data .dicom =
      .ok (pathJoin (pathDirname "/a/b.nii".data)
            (beforeFirstDot (pathBasename "/a/b.nii".data))) :=
  ⟨C5_rename_shapes.2.2.2.1 "/a/b".data rfl,
   C5_rename_shapes.2.2.2.2 "/a/b.nii".data rfl⟩

/-- C6: for a convention outside the supported set, `get_reader`,
`get_writer` and `convert_format_filename` all fail with the
unsupported-format error naming the full supported set; in
`convert_format_filename` the guard precedes classification of the input
path, so it fires for every path, including unclassifiable ones. -/
theorem C6_unsupported_guard (supp : List ImageDataFormat) (fmt : ImageDataFormat)
    (h : fmt ∉ supp) :
    get_reader supp fmt = .error (.unsupportedFormat supp) ∧
    get_writer supp fmt = .error (.unsupportedFormat supp) ∧
    ∀ p : FsPath, convert_format_filename supp p fmt = .error (.unsupportedFormat supp) := by
  refine ⟨?_, ?_, fun p => ?_⟩
  · unfold get_reader
    rw [if_pos h]
  · unfold get_writer
    rw [if_pos h]
  · unfold convert_format_filename
    rw [if_pos h]

/-- Witness for C6: dicom outside a registry holding only nifti, on a path
that `get_data_format` itself would reject. -/
theorem C6_witness :
    get_reader [ImageDataFormat.nifti] .dicom =
      .error (.unsupportedFormat [ImageDataFormat.nifti]) ∧
    get_writer [ImageDataFormat.nifti] .dicom =
      .error (.unsupportedFormat [ImageDataFormat.nifti]) ∧
    convert_format_filename [ImageDataFormat.nifti] "/x/y.txt".data .dicom =
      .error (.unsupportedFormat [ImageDataFormat.nifti]) :=
  have h : ImageDataFormat.dicom ∉ [ImageDataFormat.nifti] := by decide
  ⟨(C6_unsupported_guard _ _ h).1, (C6_unsupported_guard _ _ h).2.1,
   (C6_unsupported_guard _ _ h).2.2 "/x/y.txt".data⟩

/-- C7: when classification of `p` succeeds, the variation list succeeds,
has one entry per supported convention in the registry's fixed order
(nifti then dicom), and its length equals the number of supported
conventions. -/
theorem C7_variations_per_convention (p : FsPath) (c : ImageDataFormat)
    (h : get_data_format p = .ok c) :
    ∃ v1 v2 : FsPath,
      convert_format_filename SUPPORTED_FORMATS p .nifti = .ok v1 ∧
      convert_format_filename SUPPORTED_FORMATS p .dicom = .ok v2 ∧
      get_filepath_variations SUPPORTED_FORMATS p = .ok [v1, v2] ∧
      ([v1, v2] : List FsPath).length = SUPPORTED_FORMATS.length := by
  have h1 := convert_eq_of_resolved h .nifti
  have h2 := convert_eq_of_resolved h .dicom
  cases c with
  | dicom =>
    rw [if_neg (by decide), if_pos rfl] at h1
    rw [if_pos rfl] at h2
    exact ⟨_, _, h1, h2, variations_pair h1 h2, rfl⟩
  | nifti =>
    rw [if_pos rfl] at h1
    rw [if_neg (by decide), if_neg (by decide)] at h2
    exact ⟨_, _, h1, h2, variations_pair h1 h2, rfl⟩

/-- Witness for C7 at a concrete directory-based path. -/
theorem C7_witness :
    ∃ v1 v2 : FsPath,
      convert_format_filename SUPPORTED_FORMATS "/data/scan".data .nifti = .ok v1 ∧
      convert_format_filename SUPPORTED_FORMATS "/data/scan".data .dicom = .ok v2 ∧
      get_filepath_variations SUPPORTED_FORMATS "/data/scan".data = .ok [v1, v2] ∧
      ([v1, v2] : List FsPath).length = SUPPORTED_FORMATS.length :=
  C7_variations_per_convention "/data/scan".data .dicom rfl

/-- C1: when more than one of the variation paths exists on the
filesystem, `generic_load` fails with the ambiguity error, and the listed
paths are exactly the existing variations (every listed path exists, and
nothing outside the variation list is listed). -/
theorem C1_ambiguous_lists_existing {α : Type} (p : FsPath) (fs : FsPath → Bool)
    (read : DataReader → FsPath → Vols α) (exp : Option Nat) (vs : List FsPath)
    (hv : get_filepath_variations SUPPORTED_FORMATS p = .ok vs)
    (hex : 1 < (vs.filter fs).length) :
    generic_load SUPPORTED_FORMATS fs read p exp = .error (.ambiguousSource vs) ∧
    ∀ v ∈ vs, fs v = true := by
  obtain ⟨v1, v2, h1, h2, hvs⟩ := variations_inv hv
  subst hvs
  have hf : fs v1 = true ∧ fs v2 = true := by
    cases hf1 : fs v1 <;> cases hf2 : fs v2 <;>
      simp_all [List.filter]
  refine ⟨?_, ?_⟩
  · simp [generic_load, hv, scanExisting, hf.1, hf.2]
  · intro v hvmem
    rcases List.mem_cons.mp hvmem with h | h
    · rw [h]; exact hf.1
    · rw [List.mem_singleton.mp h]; exact hf.2

/-- Witness for C1: both variations of "/data/scan" exist. -/
theorem C1_witness :
    generic_load SUPPORTED_FORMATS (fun _ => true)
        (fun _ _ => Vols.many ([] : List Nat)) "/data/scan".data none =
      .error (.ambiguousSource ["/data/scan.nii.gz".data, "/data/scan".data]) ∧
    ∀ v ∈ (["/data/scan.nii.gz".data, "/data/scan".data] : List FsPath),
      (fun _ => true) v = true :=
  C1_ambiguous_lists_existing "/data/scan".data (fun _ => true)
    (fun _ _ => Vols.many ([] : List Nat)) none
    ["/data/scan.nii.gz".data, "/data/scan".data] rfl (by decide)

/-- C8: with an expected count given, if the reader's result (a bare value
wrapped into a one-element list if necessary) has a different length,
`generic_load` fails with the count-mismatch error reporting expected and
actual counts. -/
theorem C8_volume_count_mismatch {α : Type} (fs : FsPath → Bool)
    (read : DataReader → FsPath → Vols α) (p : FsPath) (n : Nat)
    (vs : List FsPath) (ep : FsPath) (fmt : ImageDataFormat) (r : DataReader)
    (hv : get_filepath_variations SUPPORTED_FORMATS p = .ok vs)
    (hs : scanExisting fs vs vs none = .ok (some ep))
    (hf : get_data_format ep = .ok fmt)
    (hr : get_reader SUPPORTED_FORMATS fmt = .ok r)
    (hn : (asVolList (read r ep)).length ≠ n) :
    generic_load SUPPORTED_FORMATS fs read p (some n) =
      .error (.volumeCountMismatch n (asVolList (read r ep)).length) := by
  simp [generic_load, hv, hs, hf, hr, hn]

/-- Witness for C8: expected 1 volume, the reader returns 3. -/
theorem C8_witness :
    generic_load SUPPORTED_FORMATS (fun q => decide (q = "/data/scan".data))
        (fun _ _ => Vols.many [0, 1, 2]) "/data/scan".data (some 1) =
      .error (.volumeCountMismatch 1 3) :=
  C8_volume_count_mismatch (fun q => decide (q = "/data/scan".data))
    (fun _ _ => Vols.many [0, 1, 2]) "/data/scan".data 1
    ["/data/scan.nii.gz".data, "/data/scan".data] "/data/scan".data .dicom .dicomR
    rfl rfl rfl rfl (by decide)

/-- C9: result shaping of `generic_load`: with no expected count the
reader's result is returned unchanged; with an expected count, a validated
one-element list is unwrapped to its single element; a validated list of
more than one element is returned unchanged. -/
theorem C9_load_result_shaping {α : Type} (fs : FsPath → Bool)
    (read : DataReader → FsPath → Vols α) (p : FsPath)
    (vs : List FsPath) (ep : FsPath) (fmt : ImageDataFormat) (r : DataReader)
    (hv : get_filepath_variations SUPPORTED_FORMATS p = .ok vs)
    (hs : scanExisting fs vs vs none = .ok (some ep))
    (hf : get_data_format ep = .ok fmt)
    (hr : get_reader SUPPORTED_FORMATS fmt = .ok r) :
    (generic_load SUPPORTED_FORMATS fs read p none = .ok (read r ep)) ∧
    (∀ v : α, asVolList (read r ep) = [v] →
      generic_load SUPPORTED_FORMATS fs read p (some 1) = .ok (.single v)) ∧
    (∀ (l : List α) (n : Nat), read r ep = .many l → l.length = n → 1 < n →
      generic_load SUPPORTED_FORMATS fs read p (some n) = .ok (.many l)) := by
  refine ⟨?_, fun v hone => ?_, fun l n hmany hlen hn => ?_⟩
  · simp [generic_load, hv, hs, hf, hr]
  · simp [generic_load, hv, hs, hf, hr, hone]
  · have hshape : ∃ x y t, l = x :: y :: t := by
      cases l with
      | nil => simp at hlen; omega
      | cons x t =>
        cases t with
        | nil => simp at hlen; omega
        | cons y t => exact ⟨x, y, t, rfl⟩
    obtain ⟨x, y, t, rfl⟩ := hshape
    simp [generic_load, hv, hs, hf, hr, hmany, asVolList, ← hlen]

/-- Witness for C9: the three shaping behaviours at concrete readers. -/
theorem C9_witness :
    (generic_load SUPPORTED_FORMATS (fun q => decide (q = "/data/scan".data))
        (fun _ _ => Vols.many [5, 6]) "/data/scan".data none = .ok (Vols.many [5, 6])) ∧
    (generic_load SUPPORTED_FORMATS (fun q => decide (q = "/data/scan".data))
        (fun _ _ => Vols.many [7]) "/data/scan".data (some 1) = .ok (Vols.single 7)) ∧
    (generic_load SUPPORTED_FORMATS (fun q => decide (q = "/data/scan".data))
        (fun _ _ => Vols.many [4, 5]) "/data/scan".data (some 2) = .ok (Vols.many [4, 5])) :=
  ⟨(C9_load_result_shaping (fun q => decide (q = "/data/scan".data))
      (fun _ _ => Vols.many [5, 6]) "/data/scan".data
      ["/data/scan.nii.gz".data, "/data/scan".data] "/data/scan".data .dicom .dicomR
      rfl rfl rfl rfl).1,
   (C9_load_result_shaping (fun q => decide (q = "/data/scan".data))
      (fun _ _ => Vols.many [7]) "/data/scan".data
      ["/data/scan.nii.gz".data, "/data/scan".data] "/data/scan".data .dicom .dicomR
      rfl rfl rfl rfl).2.1 7 rfl,
   (C9_load_result_shaping (fun q => decide (q = "/data/scan".data))
      (fun _ _ => Vols.many [4, 5]) "/data/scan".data
      ["/data/scan.nii.gz".data, "/data/scan".data] "/data/scan".data .dicom .dicomR
      rfl rfl rfl rfl).2.2 [4, 5] 2 rfl rfl (by decide)⟩

/-- C10: a path matching no recognizer (non-empty extension, no DICOM
marker, no NIfTI marker) makes `generic_load` fail with the
unrecognized-format error raised during variation enumeration, for every
filesystem state — in particular it never reaches the not-found error even
when nothing exists on disk. -/
theorem C10_unrecognized_before_probe {α : Type} (p : FsPath)
    (h1 : hasExt p = true) (h2 : contains_dicom_extension p = false)
    (h3 : contains_nifti_extension p = false)
    (fs : FsPath → Bool) (read : DataReader → FsPath → Vols α) (exp : Option Nat) :
    generic_load SUPPORTED_FORMATS fs read p exp = .error (.unrecognizedFormat p) := by
  have hg : get_data_format p = .error (.unrecognizedFormat p) := by
    simp [get_data_format, h1, h2, h3]
  have hc : convert_format_filename SUPPORTED_FORMATS p .nifti =
      .error (.unrecognizedFormat p) := by
    unfold convert_format_filename
    rw [if_neg (by simp [mem_SUPPORTED]), hg]
  have hvar : get_filepath_variations SUPPORTED_FORMATS p =
      .error (.unrecognizedFormat p) := by
    show variationsLoop SUPPORTED_FORMATS p [.nifti, .dicom] = _
    simp [variationsLoop, hc]
  simp [generic_load, hvar]

/-- Witness for C10: an unclassifiable path on an empty filesystem fails
with the unrecognized-format error, not the not-found error. -/
theorem C10_witness :
    generic_load SUPPORTED_FORMATS (fun _ => false)
        (fun _ _ => Vols.many ([] : List Nat)) "/data/file.txt".data none =
      .error (.unrecognizedFormat "/data/file.txt".data) :=
  C10_unrecognized_before_probe "/data/file.txt".data (by decide) (by decide) (by decide)
    (fun _ => false) (fun _ _ => Vols.many ([] : List Nat)) none
